import Mathlib

/-!
Verification of the query-compilation and cache-coherency layer of a
player-listing service (Python/FastAPI backend, `app/cache.py`,
`app/crud/player.py`, `app/schemas/player.py`).

Python strings are modelled as `List Char` (ASCII fragment), Python ints as
`Int` (arbitrary precision), Python dicts of keyword arguments as association
lists with pairwise-distinct keys.  Fallible Python code (uncaught exceptions)
is modelled with `Option`.
-/

abbrev Str := List Char

/-! ### Character helpers (ASCII model of Python `str` operations) -/

/-- `str.lower` on one ASCII character (uppercase letters map to lowercase,
everything else is fixed). -/
def lowerChar (c : Char) : Char :=
  if h : 65 ≤ c.toNat ∧ c.toNat ≤ 90 then
    Char.ofNatAux (c.toNat + 32) (Or.inl (by omega))
  else c

/-- Decimal digit test, `48 ≤ code ≤ 57`. -/
def isDigitC (c : Char) : Bool := 48 ≤ c.toNat && c.toNat ≤ 57

/-- Whitespace test for `str.strip` (space, tab, newline, carriage return). -/
def isSpaceC (c : Char) : Bool :=
  c = ' ' || c = '\t' || c = '\n' || c = '\r'

/-- `str.lower` over a whole string. -/
def pyLower (s : Str) : Str := s.map lowerChar

/-- `str.strip`: drop leading and trailing whitespace. -/
def pyStrip (s : Str) : Str :=
  ((s.dropWhile (fun c => isSpaceC c)).reverse.dropWhile (fun c => isSpaceC c)).reverse

theorem toNat_lowerChar (c : Char) :
    (lowerChar c).toNat = if 65 ≤ c.toNat ∧ c.toNat ≤ 90 then c.toNat + 32 else c.toNat := by
  unfold lowerChar
  split <;> rfl

theorem charToNat_inj {a b : Char} (h : a.toNat = b.toNat) : a = b := by
  apply Char.ext
  have h2 : a.val.toBitVec = b.val.toBitVec := BitVec.eq_of_toNat_eq h
  rw [← UInt32.mk_toBitVec_eq a.val, ← UInt32.mk_toBitVec_eq b.val, h2]

theorem lowerChar_of_digit {c : Char} (h : isDigitC c = true) : lowerChar c = c := by
  simp [isDigitC] at h
  unfold lowerChar
  rw [dif_neg]
  omega

theorem isDigitC_of_lowerChar {c : Char} (h : isDigitC (lowerChar c) = true) :
    isDigitC c = true := by
  simp only [isDigitC, Bool.and_eq_true, decide_eq_true_eq] at h ⊢
  rw [toNat_lowerChar] at h
  revert h
  split <;> omega

theorem lowerChar_ne_of_ne {c d : Char} (hd : d.toNat < 97 ∨ 122 < d.toNat) (h : c ≠ d) :
    lowerChar c ≠ d := by
  intro hcd
  have ht := toNat_lowerChar c
  rw [hcd] at ht
  by_cases hc : 65 ≤ c.toNat ∧ c.toNat ≤ 90
  · rw [if_pos hc] at ht
    rcases hd with hd | hd <;> omega
  · rw [if_neg hc] at ht
    exact h (charToNat_inj ht.symm)

/-! ### Ordering of parameter names (model of Python tuple sort on dict items) -/

/-- Lexicographic `≤` on strings, as used by Python `sorted` on the (distinct)
keys of a keyword-argument dict. -/
def keyLex : Str → Str → Bool
  | [], _ => true
  | _ :: _, [] => false
  | a :: s, b :: t => if a < b then true else if b < a then false else keyLex s t

theorem keyLex_total (s t : Str) : keyLex s t = true ∨ keyLex t s = true := by
  induction s generalizing t with
  | nil => simp [keyLex]
  | cons a s ih =>
    cases t with
    | nil => simp [keyLex]
    | cons b t =>
      simp only [keyLex]
      rcases lt_trichotomy a b with h | h | h
      · simp [h]
      · subst h
        simp only [lt_irrefl, if_false]
        exact ih t
      · simp [h, not_lt_of_lt h, lt_asymm h]

theorem keyLex_trans {s t u : Str} (h1 : keyLex s t = true) (h2 : keyLex t u = true) :
    keyLex s u = true := by
  induction s generalizing t u with
  | nil => simp [keyLex]
  | cons a s ih =>
    cases t with
    | nil => simp [keyLex] at h1
    | cons b t =>
      cases u with
      | nil => simp [keyLex] at h2
      | cons c u =>
        simp only [keyLex] at h1 h2 ⊢
        rcases lt_trichotomy a b with hab | hab | hab
        · rcases lt_trichotomy b c with hbc | hbc | hbc
          · simp [lt_trans hab hbc]
          · subst hbc; simp [hab]
          · simp [hbc, lt_asymm hbc] at h2
        · subst hab
          rcases lt_trichotomy a c with hbc | hbc | hbc
          · simp [hbc]
          · subst hbc
            simp only [lt_irrefl, if_false] at h1 h2 ⊢
            exact ih h1 h2
          · simp [hbc, lt_asymm hbc] at h2
        · simp [hab, lt_asymm hab] at h1

theorem keyLex_antisymm {s t : Str} (h1 : keyLex s t = true) (h2 : keyLex t s = true) :
    s = t := by
  induction s generalizing t with
  | nil =>
    cases t with
    | nil => rfl
    | cons b t => simp [keyLex] at h2
  | cons a s ih =>
    cases t with
    | nil => simp [keyLex] at h1
    | cons b t =>
      simp only [keyLex] at h1 h2
      rcases lt_trichotomy a b with h | h | h
      · simp [h, lt_asymm h] at h2
      · subst h
        simp only [lt_irrefl, if_false] at h1 h2
        rw [ih h1 h2]
      · simp [h, lt_asymm h] at h1

/-! ### `CacheService.generate_query_key` and `CacheService._generate_key` -/

/-- A keyword argument of `generate_query_key`: a parameter name together with
its (possibly `None`) value, values already rendered to strings. -/
abbrev Param := Str × Option Str

/-- Comparison used when sorting the parameter list by name.  Python sorts the
`(key, value)` item tuples; since a dict has pairwise-distinct keys the value
components never take part in the comparison, so sorting by key alone is the
same function on such lists. -/
def paramLe (a b : Param) : Prop := keyLex a.1 b.1 = true

instance : DecidableRel paramLe := fun a b => by
  unfold paramLe
  infer_instance

/-- `sorted(params.items())`: Python `sorted` is a stable sort; a stable sort
is the unique function returning a sorted permutation in which equal keys keep
their relative order, so insertion sort computes it. -/
def pySortedParams (params : List Param) : List Param :=
  List.insertionSort paramLe params

/-- `f"{k}={v}"` for a parameter with non-`None` value, `None` for the rest. -/
def renderParam : Param → Option Str
  | (k, some v) => some (k ++ '=' :: v)
  | (_, none) => none

/-- `"&".join(...)`. -/
def joinAmp : List Str → Str
  | [] => []
  | [s] => s
  | s :: t :: rest => s ++ '&' :: joinAmp (t :: rest)

/-- `CacheService.generate_query_key`: sort the parameters, render the
non-`None` ones as `k=v` joined by `&`, and append after `?` when non-empty. -/
def generate_query_key (base : Str) (params : List Param) : Str :=
  let param_str := joinAmp ((pySortedParams params).filterMap renderParam)
  if param_str = [] then base else base ++ '?' :: param_str

/-- `CacheService._generate_key`: `f"cache:{namespace}:{identifier}"`. -/
def generate_key (ns ident : Str) : Str :=
  "cache:".toList ++ ns ++ ':' :: ident

/-- Full cache key stored by the listing read path: namespace `"players"`,
identifier produced by `generate_query_key` with base `"list"`. -/
def fullQueryCacheKey (ns base : Str) (params : List Param) : Str :=
  generate_key ns (generate_query_key base params)

/-! #### Permutation invariance of the key derivation (C2) -/

theorem pySortedParams_sorted (l : List Param) :
    List.Sorted paramLe (pySortedParams l) := by
  haveI : IsTotal Param paramLe := ⟨fun a b => keyLex_total a.1 b.1⟩
  haveI : IsTrans Param paramLe := ⟨fun _ _ _ => keyLex_trans⟩
  exact List.sorted_insertionSort paramLe l

/-- The strict companion of `paramLe`: keys comparable and distinct. -/
def paramLt (a b : Param) : Prop := paramLe a b ∧ a.1 ≠ b.1

theorem sorted_paramLt_of_nodup {l : List Param}
    (hs : List.Sorted paramLe l) (hnd : (l.map Prod.fst).Nodup) :
    List.Sorted paramLt l := by
  have hne : l.Pairwise (fun a b : Param => a.1 ≠ b.1) := by
    rw [List.Nodup, List.pairwise_map] at hnd
    exact hnd
  exact hs.and hne

theorem eq_of_perm_of_sorted_params {l₁ l₂ : List Param}
    (hp : l₁.Perm l₂) (hs₁ : List.Sorted paramLt l₁) (hs₂ : List.Sorted paramLt l₂) :
    l₁ = l₂ := by
  haveI : IsAntisymm Param paramLt :=
    ⟨fun a b h1 h2 => absurd (keyLex_antisymm h1.1 h2.1) h1.2⟩
  exact List.eq_of_perm_of_sorted hp hs₁ hs₂

theorem pySortedParams_eq_of_perm {l₁ l₂ : List Param}
    (hp : l₁.Perm l₂) (hnd : (l₁.map Prod.fst).Nodup) :
    pySortedParams l₁ = pySortedParams l₂ := by
  have hp1 : (pySortedParams l₁).Perm (pySortedParams l₂) :=
    ((List.perm_insertionSort paramLe l₁).trans hp).trans
      (List.perm_insertionSort paramLe l₂).symm
  have hnd1 : ((pySortedParams l₁).map Prod.fst).Nodup := by
    have : (pySortedParams l₁).Perm l₁ := List.perm_insertionSort paramLe l₁
    exact ((this.map Prod.fst).nodup_iff).mpr hnd
  have hnd2 : ((pySortedParams l₂).map Prod.fst).Nodup := by
    have hperm2 : (pySortedParams l₂).Perm l₂ := List.perm_insertionSort paramLe l₂
    exact ((hperm2.map Prod.fst).nodup_iff).mpr ((hp.map Prod.fst).nodup_iff.mp hnd)
  exact eq_of_perm_of_sorted_params hp1
    (sorted_paramLt_of_nodup (pySortedParams_sorted l₁) hnd1)
    (sorted_paramLt_of_nodup (pySortedParams_sorted l₂) hnd2)

/-- C2.  For every map of query parameters (distinct names, as in a Python
keyword-argument dict) and every permutation of the order in which the
parameters are supplied, `generate_query_key` produces the identical string. -/
theorem generate_query_key_perm_invariant (base : Str) {l₁ l₂ : List Param}
    (hp : l₁.Perm l₂) (hnd : (l₁.map Prod.fst).Nodup) :
    generate_query_key base l₁ = generate_query_key base l₂ := by
  unfold generate_query_key
  rw [pySortedParams_eq_of_perm hp hnd]

/-- Witness for C2 at a concrete pair of parameter lists: the key of
`page=1&limit=10&search=test` equals the key of `search=test&limit=10&page=1`
supplied in the opposite order. -/
theorem generate_query_key_perm_invariant_witness :
    generate_query_key "list".toList
        [("page".toList, some "1".toList), ("limit".toList, some "10".toList),
         ("search".toList, some "test".toList)] =
      generate_query_key "list".toList
        [("search".toList, some "test".toList), ("limit".toList, some "10".toList),
         ("page".toList, some "1".toList)] :=
  generate_query_key_perm_invariant "list".toList
    (by decide) (by decide)

/-! #### Key format: sorted names, null parameters omitted (C8) -/

/-- Keep a parameter only when its value is not `None`. -/
def keepParam : Param → Option (Str × Str)
  | (k, some v) => some (k, v)
  | (_, none) => none

/-- Render a present parameter as `k=v`. -/
def renderPresent (p : Str × Str) : Str := p.1 ++ '=' :: p.2

/-- Name comparison on present parameters. -/
def rparamLe (a b : Str × Str) : Prop := keyLex a.1 b.1 = true

instance : DecidableRel rparamLe := fun a b => by
  unfold rparamLe
  infer_instance

/-- Strict companion of `rparamLe`. -/
def rparamLt (a b : Str × Str) : Prop := rparamLe a b ∧ a.1 ≠ b.1

/-- The key derivation as the spec words it: parameters with an absent value
are omitted entirely, the remaining ones are sorted by name and rendered as
`<base>?<k1>=<v1>&<k2>=<v2>...`, and when every parameter is null the key is
the bare base identifier with no separator. -/
def specQueryKey (base : Str) (params : List Param) : Str :=
  let present := params.filterMap keepParam
  let sortedP := List.insertionSort rparamLe present
  if sortedP = [] then base
  else base ++ '?' :: joinAmp (sortedP.map renderPresent)

/-- Spec-side full key `cache:<namespace>:<baseIdentifier>...`. -/
def specDeriveKey (ns base : Str) (params : List Param) : Str :=
  generate_key ns (specQueryKey base params)

theorem keepParam_fst {a : Param} {b : Str × Str} (h : keepParam a = some b) :
    b.1 = a.1 := by
  rcases a with ⟨k, _ | v⟩
  · simp [keepParam] at h
  · simp [keepParam] at h
    rw [← h]

theorem filterMap_render_eq (l : List Param) :
    l.filterMap renderParam = (l.filterMap keepParam).map renderPresent := by
  induction l with
  | nil => rfl
  | cons p rest ih =>
    rcases p with ⟨k, v | v⟩ <;>
      simp [renderParam, keepParam, renderPresent, List.filterMap_cons, ih]

theorem sortedPresent_eq (params : List Param)
    (hnd : (params.map Prod.fst).Nodup) :
    (pySortedParams params).filterMap keepParam =
      List.insertionSort rparamLe (params.filterMap keepParam) := by
  haveI : IsTotal (Str × Str) rparamLe := ⟨fun a b => keyLex_total a.1 b.1⟩
  haveI : IsTrans (Str × Str) rparamLe := ⟨fun _ _ _ => keyLex_trans⟩
  haveI : IsAntisymm (Str × Str) rparamLt :=
    ⟨fun a b h1 h2 => absurd (keyLex_antisymm h1.1 h2.1) h1.2⟩
  have hperm : ((pySortedParams params).filterMap keepParam).Perm
      (List.insertionSort rparamLe (params.filterMap keepParam)) :=
    ((List.perm_insertionSort paramLe params).filterMap keepParam).trans
      (List.perm_insertionSort rparamLe (params.filterMap keepParam)).symm
  have hnd1 : ((pySortedParams params).map Prod.fst).Nodup := by
    have hps : (pySortedParams params).Perm params := List.perm_insertionSort paramLe params
    exact ((hps.map Prod.fst).nodup_iff).mpr hnd
  have hpair1 : (pySortedParams params).Pairwise (fun a b : Param => a.1 ≠ b.1) := by
    rw [List.Nodup, List.pairwise_map] at hnd1
    exact hnd1
  have hs1 : List.Sorted rparamLt ((pySortedParams params).filterMap keepParam) := by
    have hcomb : (pySortedParams params).Pairwise
        (fun a b : Param => paramLe a b ∧ a.1 ≠ b.1) :=
      (pySortedParams_sorted params).and hpair1
    refine hcomb.filterMap keepParam ?_
    intro a a' h b hb b' hb'
    refine ⟨?_, ?_⟩
    · unfold rparamLe
      rw [keepParam_fst hb, keepParam_fst hb']
      exact h.1
    · rw [keepParam_fst hb, keepParam_fst hb']
      exact h.2
  have hs2 : List.Sorted rparamLt (List.insertionSort rparamLe (params.filterMap keepParam)) := by
    have hsorted : List.Sorted rparamLe
        (List.insertionSort rparamLe (params.filterMap keepParam)) :=
      List.sorted_insertionSort rparamLe (params.filterMap keepParam)
    have hnd2 : ((List.insertionSort rparamLe (params.filterMap keepParam)).map
        Prod.fst).Nodup := by
      have hpermb : (List.insertionSort rparamLe (params.filterMap keepParam)).Perm
          (params.filterMap keepParam) :=
        List.perm_insertionSort rparamLe (params.filterMap keepParam)
      refine ((hpermb.map Prod.fst).nodup_iff).mpr ?_
      rw [List.Nodup, List.pairwise_map]
      rw [List.Nodup, List.pairwise_map] at hnd
      refine hnd.filterMap keepParam ?_
      intro a a' h b hb b' hb'
      rw [keepParam_fst hb, keepParam_fst hb']
      exact h
    have hpair2 : (List.insertionSort rparamLe (params.filterMap keepParam)).Pairwise
        (fun a b : Str × Str => a.1 ≠ b.1) := by
      rw [List.Nodup, List.pairwise_map] at hnd2
      exact hnd2
    exact hsorted.and hpair2
  exact List.eq_of_perm_of_sorted hperm hs1 hs2

theorem joinAmp_map_renderPresent_ne_nil {l : List (Str × Str)} (h : l ≠ []) :
    joinAmp (l.map renderPresent) ≠ [] := by
  cases l with
  | nil => exact absurd rfl h
  | cons p rest =>
    cases rest with
    | nil => simp [joinAmp, renderPresent]
    | cons q rest2 => simp [joinAmp, renderPresent]

/-- C8.  The derived cache key has the format
`cache:<namespace>:<baseIdentifier>?<k1>=<v1>&...` with the parameter names in
sorted order and every null-valued parameter omitted entirely; when every
parameter is null the key is `cache:<namespace>:<baseIdentifier>` with no
separator.  (First conjunct: the code key equals the key built by the spec's
filter-then-sort-then-render description; second conjunct: the all-null
case.) -/
theorem cache_key_format (ns base : Str) (params : List Param)
    (hnd : (params.map Prod.fst).Nodup) :
    fullQueryCacheKey ns base params = specDeriveKey ns base params ∧
    ((∀ p ∈ params, p.2 = none) →
      fullQueryCacheKey ns base params = "cache:".toList ++ ns ++ ':' :: base) := by
  constructor
  · unfold fullQueryCacheKey specDeriveKey generate_query_key specQueryKey
    rw [filterMap_render_eq, sortedPresent_eq params hnd]
    dsimp only
    rcases hemp : List.insertionSort rparamLe (params.filterMap keepParam) with _ | ⟨p, rest⟩
    · simp [joinAmp]
    · rw [if_neg (List.cons_ne_nil p rest)]
      rw [if_neg (joinAmp_map_renderPresent_ne_nil (List.cons_ne_nil p rest))]
  · intro hnone
    unfold fullQueryCacheKey generate_query_key
    have hmem : ∀ p ∈ pySortedParams params, renderParam p = none := by
      intro p hp
      have : p ∈ params := (List.perm_insertionSort paramLe params).mem_iff.mp hp
      rcases p with ⟨k, v⟩
      have hv := hnone _ this
      simp at hv
      rw [hv]
      rfl
    rw [List.filterMap_eq_nil_iff.mpr hmem]
    simp [joinAmp, generate_key]

/-- Witness for C8 at a concrete parameter list: namespace `players`, base
`list`, parameters `b=2`, `a=1`, `c=None` (names unsorted, one null). -/
theorem cache_key_format_witness :
    fullQueryCacheKey "players".toList "list".toList
        [("b".toList, some "2".toList), ("a".toList, some "1".toList),
         ("c".toList, none)] =
      specDeriveKey "players".toList "list".toList
        [("b".toList, some "2".toList), ("a".toList, some "1".toList),
         ("c".toList, none)] ∧
    ((∀ p ∈ ([("b".toList, some "2".toList), ("a".toList, some "1".toList),
         ("c".toList, (none : Option Str))] : List Param), p.2 = none) →
      fullQueryCacheKey "players".toList "list".toList
        [("b".toList, some "2".toList), ("a".toList, some "1".toList),
         ("c".toList, none)] =
        "cache:".toList ++ "players".toList ++ ':' :: "list".toList) :=
  cache_key_format "players".toList "list".toList _ (by decide)

/-! ### Wildcard matching: Redis `KEYS` glob and SQL `LIKE` -/

/-- Generic wildcard matcher: `star` matches any sequence, `one` matches any
single character, everything else matches itself.  Instantiated as a Redis
glob (`*`/`?`, no character classes or escapes occur in the patterns the code
uses) and as SQL `LIKE` (`%`/`_`, no `ESCAPE` clause in use). -/
def patMatch (star one : Char) : Str → Str → Bool
  | [], s => s.isEmpty
  | c :: p, s =>
    if c = star then (s.tails).any (fun t => patMatch star one p t)
    else if c = one then
      match s with
      | [] => false
      | _ :: s2 => patMatch star one p s2
    else
      match s with
      | [] => false
      | d :: s2 => c == d && patMatch star one p s2

/-- Redis `KEYS` pattern matching. -/
def globMatch (p s : Str) : Bool := patMatch '*' '?' p s

/-- SQL `LIKE` matching (as applied by the store to `like()` predicates). -/
def likeMatch (p s : Str) : Bool := patMatch '%' '_' p s

theorem patMatch_literal_append (star one : Char) (lit p s : Str)
    (hlit : ∀ c ∈ lit, c ≠ star ∧ c ≠ one) :
    patMatch star one (lit ++ p) (lit ++ s) = patMatch star one p s := by
  induction lit with
  | nil => rfl
  | cons c rest ih =>
    have hc := hlit c (List.mem_cons_self c rest)
    simp only [List.cons_append, patMatch, if_neg hc.1, if_neg hc.2, List.append_eq]
    rw [ih (fun d hd => hlit d (List.mem_cons_of_mem c hd))]
    simp

/-! #### The write-path wildcard delete never matches a stored listing key (C1) -/

/-- C1 (divergence witness).  `CacheService.invalidate_players` and
`CacheService.invalidate_player` delete the pattern `cache:players:list:*`,
but the listing read path stores its entries under
`cache:players:list?...` (or bare `cache:players:list`): the glob requires a
literal `:` after `list` while the stored identifier continues with `?` (or
ends), so the wildcard delete matches NO stored listing key, for any
parameter assignment whatsoever. -/
theorem invalidate_pattern_misses_every_listing_key (params : List Param) :
    globMatch "cache:players:list:*".toList
      (fullQueryCacheKey "players".toList "list".toList params) = false := by
  have hkey : ∃ tail, (tail = [] ∨ ∃ ps, tail = '?' :: ps) ∧
      fullQueryCacheKey "players".toList "list".toList params =
        "cache:players:list".toList ++ tail := by
    unfold fullQueryCacheKey generate_key generate_query_key
    dsimp only
    split
    · exact ⟨[], Or.inl rfl, by decide⟩
    · refine ⟨'?' :: joinAmp ((pySortedParams params).filterMap renderParam),
        Or.inr ⟨_, rfl⟩, ?_⟩
      have hpre : ("cache:".toList ++ "players".toList ++ [':']) ++ "list".toList =
          "cache:players:list".toList := by decide
      rw [← hpre]
      simp
  rcases hkey with ⟨tail, htail, hkeyeq⟩
  rw [hkeyeq]
  have hpat : "cache:players:list:*".toList =
      "cache:players:list".toList ++ [':', '*'] := by decide
  rw [hpat]
  unfold globMatch
  rw [patMatch_literal_append '*' '?' _ _ _ (by decide)]
  rcases htail with h | ⟨ps, h⟩ <;> subst h
  · rfl
  · simp [patMatch]

/-! ### The listing endpoint's parameter map (C9) -/

/-- The query parameters of `GET /players` as passed to
`generate_query_key("list", search=..., field=..., page=..., limit=...,
sort_by=..., sort_order=..., filters=...)`, every value already rendered to a
string (or `None`). -/
structure ListingParams where
  search : Option Str
  field : Option Str
  page : Option Str
  limit : Option Str
  sort_by : Option Str
  sort_order : Option Str
  filters : Option Str
deriving DecidableEq

/-- The keyword-argument dict of the listing cache-key call, written in the
name-sorted order (the dict's insertion order is irrelevant to the derived
key by `generate_query_key_perm_invariant`). -/
def listingParamList (p : ListingParams) : List Param :=
  [("field".toList, p.field), ("filters".toList, p.filters),
   ("limit".toList, p.limit), ("page".toList, p.page),
   ("search".toList, p.search), ("sort_by".toList, p.sort_by),
   ("sort_order".toList, p.sort_order)]

/-- The cache-key identifier derived for a listing request. -/
def listingQueryKey (p : ListingParams) : Str :=
  generate_query_key "list".toList (listingParamList p)

/-- Rendered-and-joined parameter fragment of a key. -/
def joinedRender (l : List Param) : Str := joinAmp (l.filterMap renderParam)

theorem joinedRender_cons_none (n : Str) (t : List Param) :
    joinedRender ((n, none) :: t) = joinedRender t := by
  simp [joinedRender, List.filterMap_cons, renderParam]

theorem joinedRender_cons_some (n v : Str) (t : List Param) :
    joinedRender ((n, some v) :: t) =
      if t.filterMap renderParam = [] then n ++ '=' :: v
      else (n ++ '=' :: v) ++ '&' :: joinedRender t := by
  unfold joinedRender
  rw [List.filterMap_cons]
  simp only [renderParam]
  rcases h : t.filterMap renderParam with _ | ⟨x, rest⟩
  · rfl
  · rfl

theorem joinedRender_cons_some_shape (n v : Str) (t : List Param) :
    ∃ u, joinedRender ((n, some v) :: t) = n ++ '=' :: u := by
  rw [joinedRender_cons_some]
  split
  · exact ⟨v, rfl⟩
  · exact ⟨v ++ '&' :: joinedRender t, by simp⟩

theorem joinedRender_head_shape (l : List Param) (h : l.filterMap renderParam ≠ []) :
    ∃ m u, m ∈ l.map Prod.fst ∧ joinedRender l = m ++ '=' :: u := by
  induction l with
  | nil => simp at h
  | cons p t ih =>
    rcases p with ⟨n, _ | v⟩
    · rw [List.filterMap_cons] at h
      simp only [renderParam] at h
      rcases ih h with ⟨m, u, hm, hu⟩
      refine ⟨m, u, by simp [hm], ?_⟩
      rw [joinedRender_cons_none]
      exact hu
    · rcases joinedRender_cons_some_shape n v t with ⟨u, hu⟩
      exact ⟨n, u, by simp, hu⟩

/-- Two `name=value...` strings with `=`-free names agree exactly when the
names agree and the remainders agree. -/
theorem name_eq_split {n m a b : Str} (hn : '=' ∉ n) (hm : '=' ∉ m)
    (h : n ++ '=' :: a = m ++ '=' :: b) : n = m ∧ a = b := by
  induction n generalizing m with
  | nil =>
    cases m with
    | nil =>
      simp at h
      exact ⟨rfl, h⟩
    | cons c m2 =>
      simp at h
      exact absurd (by simp [← h.1] : '=' ∈ c :: m2) hm
  | cons c n2 ih =>
    cases m with
    | nil =>
      simp at h
      exact absurd (by simp [h.1] : '=' ∈ c :: n2) hn
    | cons d m2 =>
      simp at h
      have hn2 : '=' ∉ n2 := fun hx => hn (by simp [hx])
      have hm2 : '=' ∉ m2 := fun hx => hm (by simp [hx])
      rcases ih hn2 hm2 h.2 with ⟨he, ha⟩
      exact ⟨by rw [h.1, he], ha⟩

/-- Cancelling `&`-free values: if `v₁ ++ X₁ = v₂ ++ X₂` where each `Xᵢ`
is empty or starts with `&`, and neither value contains `&`, then the values
and remainders agree. -/
theorem amp_split {v1 v2 X1 X2 : Str} (h1 : '&' ∉ v1) (h2 : '&' ∉ v2)
    (hx1 : X1 = [] ∨ ∃ r, X1 = '&' :: r) (hx2 : X2 = [] ∨ ∃ r, X2 = '&' :: r)
    (heq : v1 ++ X1 = v2 ++ X2) : v1 = v2 ∧ X1 = X2 := by
  induction v1 generalizing v2 with
  | nil =>
    cases v2 with
    | nil =>
      simp at heq
      exact ⟨rfl, heq⟩
    | cons d v2t =>
      simp at heq
      rcases hx1 with hx | ⟨r, hx⟩
      · rw [hx] at heq
        exact absurd heq.symm (List.cons_ne_nil d _)
      · rw [hx] at heq
        have : d = '&' := by
          have := heq
          simp at this
          exact this.1.symm
        exact absurd (by simp [this] : '&' ∈ d :: v2t) h2
  | cons c v1t ih =>
    cases v2 with
    | nil =>
      simp at heq
      rcases hx2 with hx | ⟨r, hx⟩
      · rw [hx] at heq
        exact absurd heq (List.cons_ne_nil c _)
      · rw [hx] at heq
        have : c = '&' := by
          have := heq
          simp at this
          exact this.1
        exact absurd (by simp [this] : '&' ∈ c :: v1t) h1
    | cons d v2t =>
      simp at heq
      have h1t : '&' ∉ v1t := fun hx => h1 (by simp [hx])
      have h2t : '&' ∉ v2t := fun hx => h2 (by simp [hx])
      rcases ih h1t h2t heq.2 with ⟨hv, hX⟩
      exact ⟨by rw [heq.1, hv], hX⟩

/-- Values of all parameters are `None` exactly when nothing is rendered. -/
theorem filterMap_render_eq_nil_iff (l : List Param) :
    l.filterMap renderParam = [] ↔ ∀ p ∈ l, p.2 = none := by
  rw [List.filterMap_eq_nil_iff]
  constructor
  · intro h p hp
    have := h p hp
    rcases p with ⟨k, _ | v⟩
    · rfl
    · simp [renderParam] at this
  · intro h p hp
    rw [show p = (p.1, p.2) from rfl, h p hp]
    rfl

theorem all_none_eq {l1 l2 : List Param}
    (hn : l1.map Prod.fst = l2.map Prod.fst)
    (h1 : ∀ p ∈ l1, p.2 = none) (h2 : ∀ p ∈ l2, p.2 = none) : l1 = l2 := by
  induction l1 generalizing l2 with
  | nil =>
    cases l2 with
    | nil => rfl
    | cons q t2 => simp at hn
  | cons p t1 ih =>
    cases l2 with
    | nil => simp at hn
    | cons q t2 =>
      simp at hn
      have hp := h1 p (by simp)
      have hq := h2 q (by simp)
      have : p = q := by
        rcases p with ⟨a, b⟩
        rcases q with ⟨c, d⟩
        simp at hp hq
        simp [hp, hq]
        exact hn.1
      rw [this, ih hn.2 (fun r hr => h1 r (by simp [hr])) (fun r hr => h2 r (by simp [hr]))]

theorem head_name_mem {l : List Param} {n u : Str} (hl : l.filterMap renderParam ≠ [])
    (hnames : ∀ m ∈ l.map Prod.fst, '=' ∉ m) (hn : '=' ∉ n)
    (h : joinedRender l = n ++ '=' :: u) : n ∈ l.map Prod.fst := by
  rcases joinedRender_head_shape l hl with ⟨m, u2, hm, hshape⟩
  rw [hshape] at h
  rcases name_eq_split (hnames m hm) hn h with ⟨he, _⟩
  rw [← he]
  exact hm


theorem joinedRender_cons_some_assoc (n v : Str) (t : List Param) :
    joinedRender ((n, some v) :: t) =
      n ++ '=' :: (v ++ (if t.filterMap renderParam = [] then []
        else '&' :: joinedRender t)) := by
  rw [joinedRender_cons_some]
  split
  · simp
  · simp

theorem joinedRender_inj : ∀ {l1 l2 : List Param},
    l1.map Prod.fst = l2.map Prod.fst →
    (l1.map Prod.fst).Nodup →
    (∀ n ∈ l1.map Prod.fst, '=' ∉ n) →
    (∀ p ∈ l1, ∀ v, p.2 = some v → '&' ∉ v ∧ '=' ∉ v) →
    (∀ p ∈ l2, ∀ v, p.2 = some v → '&' ∉ v ∧ '=' ∉ v) →
    joinedRender l1 = joinedRender l2 →
    l1 = l2 := by
  intro l1
  induction l1 with
  | nil =>
    intro l2 hn _ _ _ _ _
    cases l2 with
    | nil => rfl
    | cons q t2 => simp at hn
  | cons p t1 ih =>
    intro l2 hn hnd hnames hc1 hc2 hjr
    rcases p with ⟨n, ov1⟩
    cases l2 with
    | nil => simp at hn
    | cons q t2 =>
      rcases q with ⟨m, ov2⟩
      simp only [List.map_cons, List.cons.injEq] at hn
      have hnm : n = m := hn.1
      subst hnm
      have hnt : t1.map Prod.fst = t2.map Prod.fst := hn.2
      have hnd2 : (n :: t1.map Prod.fst).Nodup := by
        rw [List.map_cons] at hnd
        exact hnd
      have hndt : (t1.map Prod.fst).Nodup := (List.nodup_cons.mp hnd2).2
      have hnin : n ∉ t1.map Prod.fst := (List.nodup_cons.mp hnd2).1
      have hnamest : ∀ x ∈ t1.map Prod.fst, '=' ∉ x := by
        intro x hx
        exact hnames x (by simp [hx])
      have hneq : '=' ∉ n := hnames n (by simp)
      have hc1t : ∀ r ∈ t1, ∀ v, r.2 = some v → '&' ∉ v ∧ '=' ∉ v := by
        intro r hr
        exact hc1 r (by simp [hr])
      have hc2t : ∀ r ∈ t2, ∀ v, r.2 = some v → '&' ∉ v ∧ '=' ∉ v := by
        intro r hr
        exact hc2 r (by simp [hr])
      cases ov1 with
      | none =>
        cases ov2 with
        | none =>
          rw [joinedRender_cons_none, joinedRender_cons_none] at hjr
          rw [ih hnt hndt hnamest hc1t hc2t hjr]
        | some w =>
          rw [joinedRender_cons_none] at hjr
          rcases joinedRender_cons_some_shape n w t2 with ⟨u, hu⟩
          rw [hu] at hjr
          rcases hren : t1.filterMap renderParam with _ | ⟨x, xs⟩
          · have hnil : joinedRender t1 = [] := by
              unfold joinedRender
              rw [hren]
              rfl
            rw [hnil] at hjr
            exact absurd hjr.symm (by simp)
          · have hmem : n ∈ t1.map Prod.fst :=
              head_name_mem (by rw [hren]; simp) hnamest hneq hjr
            exact absurd hmem hnin
      | some v =>
        cases ov2 with
        | none =>
          rw [joinedRender_cons_none] at hjr
          rcases joinedRender_cons_some_shape n v t1 with ⟨u, hu⟩
          rw [hu] at hjr
          rcases hren : t2.filterMap renderParam with _ | ⟨x, xs⟩
          · have hnil : joinedRender t2 = [] := by
              unfold joinedRender
              rw [hren]
              rfl
            rw [hnil] at hjr
            exact absurd hjr (by simp)
          · have hmem : n ∈ t2.map Prod.fst :=
              head_name_mem (by rw [hren]; simp) (by rw [← hnt]; exact hnamest) hneq hjr.symm
            rw [← hnt] at hmem
            exact absurd hmem hnin
        | some w =>
          have hv := hc1 (n, some v) (by simp) v rfl
          have hw := hc2 (n, some w) (by simp) w rfl
          rw [joinedRender_cons_some_assoc, joinedRender_cons_some_assoc] at hjr
          have hjr2 := (name_eq_split hneq hneq hjr).2
          have hsplit := amp_split hv.1 hw.1
            (by split
                · exact Or.inl rfl
                · exact Or.inr ⟨_, rfl⟩)
            (by split
                · exact Or.inl rfl
                · exact Or.inr ⟨_, rfl⟩)
            hjr2
          rcases hsplit with ⟨hvw, hXX⟩
          subst hvw
          rcases h1 : t1.filterMap renderParam with _ | ⟨x1, xs1⟩ <;>
            rcases h2 : t2.filterMap renderParam with _ | ⟨x2, xs2⟩ <;>
              rw [h1, h2] at hXX
          · have ha1 : ∀ r ∈ t1, r.2 = none := (filterMap_render_eq_nil_iff t1).mp h1
            have ha2 : ∀ r ∈ t2, r.2 = none := (filterMap_render_eq_nil_iff t2).mp h2
            rw [all_none_eq hnt ha1 ha2]
          · simp at hXX
          · simp at hXX
          · simp only [if_neg (List.cons_ne_nil x1 xs1), if_neg (List.cons_ne_nil x2 xs2),
              List.cons.injEq] at hXX
            rw [ih hnt hndt hnamest hc1t hc2t hXX.2]

/-- A value is clean when it contains neither of the separator characters the
renderer itself inserts. -/
def cleanVal : Option Str → Prop
  | none => True
  | some v => '&' ∉ v ∧ '=' ∉ v

instance : DecidablePred cleanVal := fun v =>
  match v with
  | none => isTrue trivial
  | some s => inferInstanceAs (Decidable ('&' ∉ s ∧ '=' ∉ s))

/-- All seven listing parameter values are clean. -/
def CleanListing (p : ListingParams) : Prop :=
  cleanVal p.search ∧ cleanVal p.field ∧ cleanVal p.page ∧ cleanVal p.limit ∧
    cleanVal p.sort_by ∧ cleanVal p.sort_order ∧ cleanVal p.filters

instance (p : ListingParams) : Decidable (CleanListing p) :=
  inferInstanceAs (Decidable (cleanVal p.search ∧ cleanVal p.field ∧ cleanVal p.page ∧
    cleanVal p.limit ∧ cleanVal p.sort_by ∧ cleanVal p.sort_order ∧ cleanVal p.filters))

theorem cleanListing_spec {p : ListingParams} (h : CleanListing p) :
    ∀ q ∈ listingParamList p, ∀ v, q.2 = some v → '&' ∉ v ∧ '=' ∉ v := by
  intro q hq v hv
  simp only [listingParamList, List.mem_cons, List.not_mem_nil, or_false] at hq
  rcases hq with h1 | h1 | h1 | h1 | h1 | h1 | h1 <;> subst h1 <;>
    simp only at hv
  · have hc := h.2.1
    rw [hv] at hc
    exact hc
  · have hc := h.2.2.2.2.2.2
    rw [hv] at hc
    exact hc
  · have hc := h.2.2.2.1
    rw [hv] at hc
    exact hc
  · have hc := h.2.2.1
    rw [hv] at hc
    exact hc
  · have hc := h.1
    rw [hv] at hc
    exact hc
  · have hc := h.2.2.2.2.1
    rw [hv] at hc
    exact hc
  · have hc := h.2.2.2.2.2.1
    rw [hv] at hc
    exact hc

theorem listingParamList_map_fst (p : ListingParams) :
    (listingParamList p).map Prod.fst =
      ["field".toList, "filters".toList, "limit".toList, "page".toList,
       "search".toList, "sort_by".toList, "sort_order".toList] := rfl

theorem listingParamList_sorted (p : ListingParams) :
    List.Sorted paramLe (listingParamList p) := by
  have hpw : List.Pairwise (fun a b : Str => keyLex a b = true)
      ((listingParamList p).map Prod.fst) := by
    rw [listingParamList_map_fst]
    decide
  exact (List.pairwise_map.mp hpw).imp (fun h => h)

theorem listingQueryKey_eq (p : ListingParams) :
    listingQueryKey p =
      if joinedRender (listingParamList p) = [] then "list".toList
      else "list".toList ++ '?' :: joinedRender (listingParamList p) := by
  unfold listingQueryKey generate_query_key pySortedParams joinedRender
  rw [(listingParamList_sorted p).insertionSort_eq]

theorem listingParamList_inj {p1 p2 : ListingParams}
    (h : listingParamList p1 = listingParamList p2) : p1 = p2 := by
  cases p1
  cases p2
  simp only [listingParamList, List.cons.injEq, Prod.mk.injEq, and_true, true_and] at h
  simp only [ListingParams.mk.injEq]
  tauto

/-- C9 (amended).  If no supplied parameter value contains the separator
characters `&` or `=`, then two listing parameter maps that differ anywhere
derive different cache keys. -/
theorem listing_query_key_injective (p1 p2 : ListingParams)
    (hc1 : CleanListing p1) (hc2 : CleanListing p2) (hne : p1 ≠ p2) :
    listingQueryKey p1 ≠ listingQueryKey p2 := by
  intro hkey
  apply hne
  rw [listingQueryKey_eq, listingQueryKey_eq] at hkey
  have hnames : (listingParamList p1).map Prod.fst = (listingParamList p2).map Prod.fst := by
    rw [listingParamList_map_fst, listingParamList_map_fst]
  have hnd : ((listingParamList p1).map Prod.fst).Nodup := by
    rw [listingParamList_map_fst]
    decide
  have heqfree : ∀ n ∈ (listingParamList p1).map Prod.fst, '=' ∉ n := by
    rw [listingParamList_map_fst]
    decide
  have hmain : joinedRender (listingParamList p1) = joinedRender (listingParamList p2) →
      p1 = p2 := fun hjr =>
    listingParamList_inj
      (joinedRender_inj hnames hnd heqfree (cleanListing_spec hc1) (cleanListing_spec hc2) hjr)
  rcases hJ1 : joinedRender (listingParamList p1) with _ | ⟨x1, xs1⟩ <;>
    rcases hJ2 : joinedRender (listingParamList p2) with _ | ⟨x2, xs2⟩ <;>
      rw [hJ1, hJ2] at hkey
  · exact hmain (hJ1.trans hJ2.symm)
  · rw [if_pos rfl, if_neg (List.cons_ne_nil x2 xs2)] at hkey
    simp at hkey
  · rw [if_neg (List.cons_ne_nil x1 xs1), if_pos rfl] at hkey
    exact absurd hkey.symm (by simp)
  · rw [if_neg (List.cons_ne_nil x1 xs1), if_neg (List.cons_ne_nil x2 xs2)] at hkey
    have hcan := List.append_cancel_left hkey
    simp only [List.cons.injEq, true_and] at hcan
    have hA : x1 :: xs1 = x2 :: xs2 := by rw [hcan.1, hcan.2]
    exact hmain (hJ1.trans (hA.trans hJ2.symm))

/-- Witness for the amended C9 at concrete inputs: `page=1` vs `page=2`
derive different keys. -/
theorem listing_query_key_injective_witness :
    listingQueryKey ⟨none, none, some "1".toList, none, none, none, none⟩ ≠
      listingQueryKey ⟨none, none, some "2".toList, none, none, none, none⟩ :=
  listing_query_key_injective _ _ (by decide) (by decide) (by decide)

/-- C9 (counterexample).  Two listing parameter maps that differ in the value
of the non-null `field` parameter (and also in `filters`) derive the SAME
cache key, because a parameter value may itself contain `&name=`: `field="a"`
with `filters="b"` collides with `field="a&filters=b"` with `filters=None`. -/
theorem listing_query_key_collision :
    listingQueryKey ⟨none, some "a".toList, none, none, none, none, some "b".toList⟩ =
        listingQueryKey ⟨none, some "a&filters=b".toList, none, none, none, none, none⟩ ∧
      (⟨none, some "a".toList, none, none, none, none, some "b".toList⟩ : ListingParams) ≠
        ⟨none, some "a&filters=b".toList, none, none, none, none, none⟩ ∧
      (some "a".toList : Option Str) ≠ some "a&filters=b".toList := by
  decide

/-! ### Python `int(str)` (ASCII model) -/

/-- Digit tail parser: after a first digit, digits continue, with single
underscores allowed between digits (PEP 515), accumulating the value. -/
def parseDigitsCore : Str → Nat → Option Nat
  | [], acc => some acc
  | c :: rest, acc =>
    if c = '_' then
      match rest with
      | [] => none
      | d :: rest2 =>
        if isDigitC d then parseDigitsCore rest2 (acc * 10 + (d.toNat - 48)) else none
    else if isDigitC c then parseDigitsCore rest (acc * 10 + (c.toNat - 48))
    else none

/-- Unsigned decimal literal: nonempty, starts with a digit, underscores only
between digits. -/
def parseUDigits : Str → Option Nat
  | [] => none
  | c :: rest => if isDigitC c then parseDigitsCore rest (c.toNat - 48) else none

/-- `int(s)` for a Python string: strip whitespace, optional sign, decimal
digits (with PEP 515 underscores); `None` models the `ValueError`. -/
def pyParseInt (s : Str) : Option Int :=
  match pyStrip s with
  | [] => none
  | c :: rest =>
    if c = '+' then (parseUDigits rest).map (fun n => (n : Int))
    else if c = '-' then (parseUDigits rest).map (fun n => -(n : Int))
    else (parseUDigits (c :: rest)).map (fun n => (n : Int))

theorem parseDigitsCore_all_digits (l : Str) (h : ∀ c ∈ l, isDigitC c = true) :
    ∀ acc, ∃ n, parseDigitsCore l acc = some n := by
  induction l with
  | nil =>
    intro acc
    exact ⟨acc, rfl⟩
  | cons c rest ih =>
    intro acc
    have hc : isDigitC c = true := h c (by simp)
    have hcu : c ≠ '_' := by
      intro hx
      rw [hx] at hc
      simp [isDigitC] at hc
    unfold parseDigitsCore
    rw [if_neg hcu, if_pos hc]
    exact ih (fun d hd => h d (by simp [hd])) _

theorem parseUDigits_all_digits {l : Str} (hne : l ≠ []) (h : ∀ c ∈ l, isDigitC c = true) :
    ∃ n, parseUDigits l = some n := by
  cases l with
  | nil => exact absurd rfl hne
  | cons c rest =>
    have hc : isDigitC c = true := h c (by simp)
    have he : parseUDigits (c :: rest) =
        if isDigitC c then parseDigitsCore rest (c.toNat - 48) else none := rfl
    rw [he, if_pos hc]
    exact parseDigitsCore_all_digits rest (fun d hd => h d (by simp [hd])) _

/-- A nonempty all-digit stripped string always parses as an integer. -/
theorem pyParseInt_of_all_digits {s : Str} (hne : pyStrip s ≠ [])
    (h : ∀ c ∈ pyStrip s, isDigitC c = true) : ∃ n, pyParseInt s = some n := by
  rcases hst : pyStrip s with _ | ⟨c, rest⟩
  · exact absurd hst hne
  · have hpy : pyParseInt s =
        if c = '+' then (parseUDigits rest).map (fun n => (n : Int))
        else if c = '-' then (parseUDigits rest).map (fun n => -(n : Int))
        else (parseUDigits (c :: rest)).map (fun n => (n : Int)) := by
      unfold pyParseInt
      rw [hst]
    rw [hpy]
    rw [hst] at h
    have hc : isDigitC c = true := h c (by simp)
    have hplus : c ≠ '+' := by
      intro hx
      rw [hx] at hc
      simp [isDigitC] at hc
    have hminus : c ≠ '-' := by
      intro hx
      rw [hx] at hc
      simp [isDigitC] at hc
    rw [if_neg hplus, if_neg hminus]
    rcases parseUDigits_all_digits (List.cons_ne_nil c rest) h with ⟨n, hn⟩
    exact ⟨n, by rw [hn]; rfl⟩

/-! ### `app/schemas/player.py`: filter fields, operators, `PlayerFilter` -/

/-- `FilterFieldType` literal. -/
inductive FilterField
  | position
  | team
  | jersey_number
  | active_status
  | regular_season_games_played
  | regular_season_goals
  | regular_season_assists
  | regular_season_points
  | playoff_games_played
  | playoff_goals
  | playoff_assists
  | playoff_points
  | games_played
  | goals
  | assists
  | points
deriving DecidableEq, Fintype

/-- `FilterOperatorType` literal (union of the string/numeric/boolean operator
literals). -/
inductive FilterOp
  | opEq
  | opNe
  | opContains
  | opNotContains
  | opGt
  | opLt
  | opGe
  | opLe
deriving DecidableEq, Fintype

/-- A Python `str | int | bool` filter value. -/
inductive PyValue
  | pyStr (s : Str)
  | pyInt (n : Int)
  | pyBool (b : Bool)
deriving DecidableEq

/-- A constructed `PlayerFilter` record. -/
structure PlayerFilter where
  field : FilterField
  operator : FilterOp
  value : PyValue
deriving DecidableEq

/-- The `validate_operator_for_field` check, with the code's branch structure:
string fields by name list, then the thirteen numeric fields by name list,
then the boolean field. -/
def operatorAllowedCode (f : FilterField) (op : FilterOp) : Bool :=
  if f ∈ [FilterField.position, FilterField.team] then
    op ∈ [FilterOp.opEq, FilterOp.opNe, FilterOp.opContains, FilterOp.opNotContains]
  else if f ∈ [FilterField.jersey_number,
      FilterField.regular_season_games_played, FilterField.regular_season_goals,
      FilterField.regular_season_assists, FilterField.regular_season_points,
      FilterField.playoff_games_played, FilterField.playoff_goals,
      FilterField.playoff_assists, FilterField.playoff_points,
      FilterField.games_played, FilterField.goals, FilterField.assists,
      FilterField.points] then
    op ∈ [FilterOp.opEq, FilterOp.opNe, FilterOp.opGt, FilterOp.opLt,
      FilterOp.opGe, FilterOp.opLe]
  else if f = FilterField.active_status then
    op ∈ [FilterOp.opEq, FilterOp.opNe]
  else
    true

/-- Constructing a `PlayerFilter` (pydantic validation): the operator check
runs at construction time; on mismatch the model returns the validation
error. -/
def mkPlayerFilter (f : FilterField) (op : FilterOp) (v : PyValue) :
    Except Str PlayerFilter :=
  if operatorAllowedCode f op then Except.ok ⟨f, op, v⟩
  else Except.error "Invalid operator for field".toList

/-- Type class of a filter field (spec wording: string, numeric, boolean). -/
inductive TypeClass
  | stringT
  | numericT
  | booleanT
deriving DecidableEq

/-- Field → type class, as the spec's field registry describes it. -/
def typeClassOf : FilterField → TypeClass
  | FilterField.position => TypeClass.stringT
  | FilterField.team => TypeClass.stringT
  | FilterField.active_status => TypeClass.booleanT
  | _ => TypeClass.numericT

/-- Allowed operator set per type class, as the claim words it. -/
def allowedOps : TypeClass → List FilterOp
  | TypeClass.stringT =>
    [FilterOp.opEq, FilterOp.opNe, FilterOp.opContains, FilterOp.opNotContains]
  | TypeClass.numericT =>
    [FilterOp.opEq, FilterOp.opNe, FilterOp.opGt, FilterOp.opLt,
      FilterOp.opGe, FilterOp.opLe]
  | TypeClass.booleanT => [FilterOp.opEq, FilterOp.opNe]

/-- C3.  For every FilterSpec whose operator is outside the allowed operator
set of its field's type class, construction fails with the validation error
(the combination is rejected at `PlayerFilter` construction, before any query
compilation). -/
theorem invalid_operator_rejected_at_construction
    (f : FilterField) (op : FilterOp) (v : PyValue)
    (h : op ∉ allowedOps (typeClassOf f)) :
    mkPlayerFilter f op v = Except.error "Invalid operator for field".toList := by
  have hcode : operatorAllowedCode f op = false := by
    revert h
    revert op
    revert f
    decide
  unfold mkPlayerFilter
  rw [hcode]
  rfl

/-- Witness for C3 at a concrete input: `position` with `>` is rejected. -/
theorem invalid_operator_rejected_at_construction_witness :
    mkPlayerFilter FilterField.position FilterOp.opGt (PyValue.pyStr "C".toList) =
      Except.error "Invalid operator for field".toList :=
  invalid_operator_rejected_at_construction FilterField.position FilterOp.opGt
    (PyValue.pyStr "C".toList) (by decide)

/-! ### Player rows (the `Player ⋈ Team` joined record the query runs over) -/

/-- A row of the base query `db.query(Player).join(Team)`: the player's stored
columns together with the joined team's name.  Dates are modelled as opaque
ordinals. -/
structure PlayerRow where
  id : Int
  name : Str
  position : Str
  nationality : Str
  team_id : Int
  team_name : Str
  jersey_number : Int
  birth_date : Int
  height : Str
  weight : Int
  handedness : Str
  active_status : Bool
  regular_season_games_played : Int
  regular_season_goals : Int
  regular_season_assists : Int
  regular_season_points : Int
  playoff_games_played : Int
  playoff_goals : Int
  playoff_assists : Int
  playoff_points : Int
  games_played : Int
  goals : Int
  assists : Int
  points : Int
deriving DecidableEq

/-! ### `_apply_sorting` and `_get_sort_column` (C5) -/

/-- `SortFieldType` literal. -/
inductive SortField
  | name
  | position
  | team
  | jersey_number
  | active_status
  | regular_season_games_played
  | regular_season_goals
  | regular_season_assists
  | regular_season_points
  | playoff_games_played
  | playoff_goals
  | playoff_assists
  | playoff_points
  | games_played
  | goals
  | assists
  | points
deriving DecidableEq, Fintype

/-- `SortDirectionType` literal. -/
inductive SortDir
  | asc
  | desc
deriving DecidableEq, Fintype

/-- The orderable column references of `_get_sort_column`'s mapping. -/
inductive SortColumn
  | player_name
  | player_position
  | team_name
  | jersey_number
  | active_status
  | regular_season_games_played
  | regular_season_goals
  | regular_season_assists
  | regular_season_points
  | playoff_games_played
  | playoff_goals
  | playoff_assists
  | playoff_points
  | games_played
  | goals
  | assists
  | points
deriving DecidableEq

/-- `_get_sort_column`: the static `sort_mapping` table (every `SortFieldType`
value is a key of the table, so the `.get` default `Player.name` is never
taken for a validated request). -/
def getSortColumn : SortField → SortColumn
  | SortField.name => SortColumn.player_name
  | SortField.position => SortColumn.player_position
  | SortField.team => SortColumn.team_name
  | SortField.jersey_number => SortColumn.jersey_number
  | SortField.active_status => SortColumn.active_status
  | SortField.regular_season_games_played => SortColumn.regular_season_games_played
  | SortField.regular_season_goals => SortColumn.regular_season_goals
  | SortField.regular_season_assists => SortColumn.regular_season_assists
  | SortField.regular_season_points => SortColumn.regular_season_points
  | SortField.playoff_games_played => SortColumn.playoff_games_played
  | SortField.playoff_goals => SortColumn.playoff_goals
  | SortField.playoff_assists => SortColumn.playoff_assists
  | SortField.playoff_points => SortColumn.playoff_points
  | SortField.games_played => SortColumn.games_played
  | SortField.goals => SortColumn.goals
  | SortField.assists => SortColumn.assists
  | SortField.points => SortColumn.points

/-- Storage-level ordering direction of the compiled `order_by`. -/
inductive StorageDir
  | sasc
  | sdesc
deriving DecidableEq

/-- The direction the caller requested, read directly as a storage
direction. -/
def dirToStorage : SortDir → StorageDir
  | SortDir.asc => StorageDir.sasc
  | SortDir.desc => StorageDir.sdesc

/-- `_apply_sorting`: `active_status` compiles with the direction reversed
(`asc(...)` when `"desc"` was requested and `desc(...)` otherwise); every
other field compiles `_get_sort_column` with the requested direction. -/
def applySorting (sort_by : SortField) (sort_order : SortDir) :
    SortColumn × StorageDir :=
  if sort_by = SortField.active_status then
    if sort_order = SortDir.desc then (SortColumn.active_status, StorageDir.sasc)
    else (SortColumn.active_status, StorageDir.sdesc)
  else
    if sort_order = SortDir.desc then (getSortColumn sort_by, StorageDir.sdesc)
    else (getSortColumn sort_by, StorageDir.sasc)

/-- A column value: string, integer or boolean. -/
inductive ColVal
  | vStr (s : Str)
  | vInt (n : Int)
  | vBool (b : Bool)
deriving DecidableEq

/-- Column dereference on a joined row. -/
def columnValue : SortColumn → PlayerRow → ColVal
  | SortColumn.player_name, p => ColVal.vStr p.name
  | SortColumn.player_position, p => ColVal.vStr p.position
  | SortColumn.team_name, p => ColVal.vStr p.team_name
  | SortColumn.jersey_number, p => ColVal.vInt p.jersey_number
  | SortColumn.active_status, p => ColVal.vBool p.active_status
  | SortColumn.regular_season_games_played, p => ColVal.vInt p.regular_season_games_played
  | SortColumn.regular_season_goals, p => ColVal.vInt p.regular_season_goals
  | SortColumn.regular_season_assists, p => ColVal.vInt p.regular_season_assists
  | SortColumn.regular_season_points, p => ColVal.vInt p.regular_season_points
  | SortColumn.playoff_games_played, p => ColVal.vInt p.playoff_games_played
  | SortColumn.playoff_goals, p => ColVal.vInt p.playoff_goals
  | SortColumn.playoff_assists, p => ColVal.vInt p.playoff_assists
  | SortColumn.playoff_points, p => ColVal.vInt p.playoff_points
  | SortColumn.games_played, p => ColVal.vInt p.games_played
  | SortColumn.goals, p => ColVal.vInt p.goals
  | SortColumn.assists, p => ColVal.vInt p.assists
  | SortColumn.points, p => ColVal.vInt p.points

/-- Storage `≤` on column values (SQL semantics: numbers numerically, strings
lexicographically, `false < true`; heterogeneous comparisons never arise for a
fixed column). -/
def colValLe : ColVal → ColVal → Bool
  | ColVal.vStr a, ColVal.vStr b => keyLex a b
  | ColVal.vInt a, ColVal.vInt b => decide (a ≤ b)
  | ColVal.vBool a, ColVal.vBool b => !a || b
  | _, _ => true

/-- "May precede" relation of a compiled ordering: ascending reads the column
order directly, descending flips it. -/
def orderLe (ord : SortColumn × StorageDir) (p q : PlayerRow) : Bool :=
  match ord.2 with
  | StorageDir.sasc => colValLe (columnValue ord.1 p) (columnValue ord.1 q)
  | StorageDir.sdesc => colValLe (columnValue ord.1 q) (columnValue ord.1 p)

/-- C5.  Sorting by `active_status` inverts the requested direction relative
to storage order (requested ascending compiles to storage-descending and vice
versa), the inversion applies only to `active_status` (every other field
compiles its mapped column with the requested direction directly), and under
the compiled `active_status` ascending order an active row precedes an
inactive one and never conversely. -/
theorem active_status_sort_inverted :
    applySorting SortField.active_status SortDir.asc =
        (SortColumn.active_status, StorageDir.sdesc) ∧
      applySorting SortField.active_status SortDir.desc =
        (SortColumn.active_status, StorageDir.sasc) ∧
      (∀ f : SortField, f ≠ SortField.active_status → ∀ d : SortDir,
        applySorting f d = (getSortColumn f, dirToStorage d)) ∧
      (∀ p q : PlayerRow, p.active_status = true → q.active_status = false →
        orderLe (applySorting SortField.active_status SortDir.asc) p q = true ∧
          orderLe (applySorting SortField.active_status SortDir.asc) q p = false) := by
  refine ⟨rfl, rfl, ?_, ?_⟩
  · decide
  · intro p q hp hq
    constructor
    · simp [applySorting, orderLe, columnValue, colValLe, hp, hq]
    · simp [applySorting, orderLe, columnValue, colValLe, hp, hq]

/-- A sample joined row (used only to instantiate witnesses). -/
def sampleRow : PlayerRow :=
  ⟨1, "Bob".toList, "C".toList, "Canada".toList, 1, "Flames".toList, 7, 19900101,
    "6ft2".toList, 200, "L".toList, true, 10, 2, 3, 5, 4, 1, 1, 2, 14, 3, 4, 7⟩

/-- A second sample row, inactive. -/
def sampleRow2 : PlayerRow :=
  ⟨2, "Al".toList, "G".toList, "Sweden".toList, 1, "Flames".toList, 31, 19880101,
    "6ft0".toList, 190, "R".toList, false, 20, 0, 1, 1, 0, 0, 0, 0, 20, 0, 1, 1⟩

/-- Witness for C5 at concrete inputs: a non-`active_status` field follows the
requested direction, and the concrete active row precedes the inactive one
under the compiled `active_status` ascending order. -/
theorem active_status_sort_inverted_witness :
    applySorting SortField.goals SortDir.desc =
        (getSortColumn SortField.goals, dirToStorage SortDir.desc) ∧
      (orderLe (applySorting SortField.active_status SortDir.asc) sampleRow sampleRow2 = true ∧
        orderLe (applySorting SortField.active_status SortDir.asc) sampleRow2 sampleRow = false) :=
  ⟨active_status_sort_inverted.2.2.1 SortField.goals (by decide) SortDir.desc,
    active_status_sort_inverted.2.2.2 sampleRow sampleRow2 (by decide) (by decide)⟩

/-! ### Decimal rendering (`str(int)` / SQL cast of an integer column) -/

/-- One decimal digit as a character (inputs are always `< 10`). -/
def digitCharC : Nat → Char
  | 0 => '0'
  | 1 => '1'
  | 2 => '2'
  | 3 => '3'
  | 4 => '4'
  | 5 => '5'
  | 6 => '6'
  | 7 => '7'
  | 8 => '8'
  | _ => '9'

theorem digitCharC_digit (d : Nat) : isDigitC (digitCharC d) = true := by
  unfold digitCharC
  rcases d with _ | _ | _ | _ | _ | _ | _ | _ | _ | _ | d <;> rfl

/-- Most-significant-first decimal digits of `n`, with enough fuel. -/
def toDecimalAux : Nat → Nat → Str
  | 0, _ => []
  | fuel + 1, n =>
    if n = 0 then [] else toDecimalAux fuel (n / 10) ++ [digitCharC (n % 10)]

/-- `str(n)` for a natural number. -/
def pyStrNat (n : Nat) : Str := if n = 0 then ['0'] else toDecimalAux n n

/-- `str(i)` for a Python int (also the string a SQL cast produces for an
integer column). -/
def pyStrInt (i : Int) : Str :=
  if i < 0 then '-' :: pyStrNat i.natAbs else pyStrNat i.toNat

theorem toDecimalAux_digits (fuel n : Nat) :
    ∀ c ∈ toDecimalAux fuel n, isDigitC c = true := by
  induction fuel generalizing n with
  | zero =>
    intro c hc
    simp [toDecimalAux] at hc
  | succ fuel ih =>
    intro c hc
    unfold toDecimalAux at hc
    split at hc
    · simp at hc
    · rcases List.mem_append.mp hc with h | h
      · exact ih (n / 10) c h
      · simp at h
        rw [h]
        exact digitCharC_digit (n % 10)

theorem pyStrNat_digits (n : Nat) : ∀ c ∈ pyStrNat n, isDigitC c = true := by
  unfold pyStrNat
  split
  · intro c hc
    simp at hc
    rw [hc]
    rfl
  · exact toDecimalAux_digits n n

theorem toDecimalAux_ne_nil {fuel n : Nat} (hf : 1 ≤ fuel) (hn : n ≠ 0) :
    toDecimalAux fuel n ≠ [] := by
  cases fuel with
  | zero => omega
  | succ fuel =>
    unfold toDecimalAux
    rw [if_neg hn]
    simp

theorem pyStrNat_ne_nil (n : Nat) : pyStrNat n ≠ [] := by
  unfold pyStrNat
  split
  · simp
  · exact toDecimalAux_ne_nil (by omega) (by assumption)

/-! ### `_apply_search_filters` (C4) -/

/-- `SearchFieldType` literal. -/
inductive SearchField
  | all
  | name
  | position
  | team
  | nationality
  | jersey_number
deriving DecidableEq, Fintype

/-- `PlayerSearchParams` (page/limit bounds `ge=1`, `le=100` are enforced
upstream by pydantic and appear as hypotheses of the theorems). -/
structure SearchParams where
  search : Option Str
  field : SearchField
  page : Nat
  limit : Nat
  sort_by : SortField
  sort_order : SortDir
  filters : List PlayerFilter

/-- `search_term = f"%{search.strip().lower()}%"`. -/
def likeTerm (s : Str) : Str := '%' :: (pyLower (pyStrip s)) ++ ['%']

/-- The jersey-number member of the all-fields disjunction:
`func.lower(cast(Player.jersey_number, String)).like(search_term)`. -/
def jerseyAllDisjunct (s : Str) (p : PlayerRow) : Bool :=
  likeMatch (likeTerm s) (pyLower (pyStrInt p.jersey_number))

/-- `_apply_search_filters` as a row predicate: no-op for an absent or
whitespace-only search string, otherwise dispatch on the search field; the
`jersey_number` field parses the search as an int and compiles the
always-false `Player.id == -1` condition when parsing fails. -/
def searchPred (sp : SearchParams) (p : PlayerRow) : Bool :=
  match sp.search with
  | none => true
  | some s =>
    if pyStrip s = [] then true
    else
      match sp.field with
      | SearchField.all =>
        likeMatch (likeTerm s) (pyLower p.name) ||
          likeMatch (likeTerm s) (pyLower p.position) ||
          likeMatch (likeTerm s) (pyLower p.nationality) ||
          likeMatch (likeTerm s) (pyLower p.team_name) ||
          jerseyAllDisjunct s p
      | SearchField.name => likeMatch (likeTerm s) (pyLower p.name)
      | SearchField.position => likeMatch (likeTerm s) (pyLower p.position)
      | SearchField.team => likeMatch (likeTerm s) (pyLower p.team_name)
      | SearchField.nationality => likeMatch (likeTerm s) (pyLower p.nationality)
      | SearchField.jersey_number =>
        match pyParseInt s with
        | some n => decide (p.jersey_number = n)
        | none => decide (p.id = -1)

theorem patMatch_lit_then_star {t v : Str} (ht : ∀ c ∈ t, c ≠ '%' ∧ c ≠ '_')
    (h : patMatch '%' '_' (t ++ ['%']) v = true) : t <+: v := by
  induction t generalizing v with
  | nil => exact List.nil_prefix
  | cons c t2 ih =>
    have hc := ht c (by simp)
    rw [List.cons_append] at h
    unfold patMatch at h
    rw [if_neg hc.1, if_neg hc.2] at h
    cases v with
    | nil => simp at h
    | cons d v2 =>
      simp only [Bool.and_eq_true, beq_iff_eq] at h
      rcases h with ⟨hcd, hrec⟩
      have hpre := ih (fun e he => ht e (by simp [he])) hrec
      exact List.cons_prefix_cons.mpr ⟨hcd, hpre⟩

theorem likeMatch_term_infix {t u : Str} (ht : ∀ c ∈ t, c ≠ '%' ∧ c ≠ '_')
    (h : likeMatch ('%' :: (t ++ ['%'])) u = true) : t <:+: u := by
  unfold likeMatch patMatch at h
  rw [if_pos rfl] at h
  rw [List.any_eq_true] at h
  rcases h with ⟨v, hv, hm⟩
  have hvs : v <:+ u := (List.mem_tails v u).mp hv
  have hp : t <+: v := patMatch_lit_then_star ht hm
  rcases hp with ⟨t2, ht2⟩
  rcases hvs with ⟨s0, hs0⟩
  exact ⟨s0, t2, by rw [← hs0, ← ht2, List.append_assoc]⟩

/-- C4 (counterexample).  The search string `"_"` does not parse as an
integer, yet in the all-fields disjunction the compiled jersey-number
condition `lower(cast(jersey_number, String)) LIKE '%_%'` matches a player
with jersey number 7 (the `_` wildcard of SQL `LIKE` matches any single
character), so the predicate for that field is not an always-false
condition. -/
theorem jersey_allfields_nonint_matches :
    pyParseInt "_".toList = none ∧
      jerseyAllDisjunct "_".toList sampleRow = true ∧
      (1 : Int) ≤ sampleRow.id ∧ (0 : Int) ≤ sampleRow.jersey_number ∧
      sampleRow.jersey_number ≤ 99 := by
  decide

/-- C4 (amended).  Searching the jersey-number field by exact field name with
a search string that does not parse as an integer compiles the always-false
`id == -1` condition, so no row with a positive id matches and no error is
raised (the predicate is total); through the all-fields disjunction the
jersey-number member matches no row with a non-negative jersey number
provided the (stripped) search string contains no SQL `LIKE` wildcard
(`%` or `_`). -/
theorem jersey_search_nonint_zero_rows :
    (∀ (s : Str) (p : PlayerRow) (pg lim : Nat) (sb : SortField) (so : SortDir)
        (fl : List PlayerFilter),
      pyParseInt s = none → pyStrip s ≠ [] → 1 ≤ p.id →
      searchPred ⟨some s, SearchField.jersey_number, pg, lim, sb, so, fl⟩ p = false) ∧
    (∀ (s : Str) (p : PlayerRow),
      pyParseInt s = none → pyStrip s ≠ [] → '%' ∉ pyStrip s → '_' ∉ pyStrip s →
      0 ≤ p.jersey_number →
      jerseyAllDisjunct s p = false) := by
  constructor
  · intro s p pg lim sb so fl hpi hne hid
    unfold searchPred
    simp only
    rw [if_neg hne, hpi]
    simp only [decide_eq_false_iff_not]
    omega
  · intro s p hpi hne hpc huc hj
    rw [Bool.eq_false_iff]
    intro h
    unfold jerseyAllDisjunct likeTerm at h
    have ht : ∀ c ∈ pyLower (pyStrip s), c ≠ '%' ∧ c ≠ '_' := by
      intro c hc
      rcases List.mem_map.mp hc with ⟨c0, hc0, hlow⟩
      constructor
      · rw [← hlow]
        exact lowerChar_ne_of_ne (Or.inl (by decide)) (fun hx => hpc (hx ▸ hc0))
      · rw [← hlow]
        exact lowerChar_ne_of_ne (Or.inl (by decide)) (fun hx => huc (hx ▸ hc0))
    have hinf : pyLower (pyStrip s) <:+: pyLower (pyStrInt p.jersey_number) :=
      likeMatch_term_infix ht h
    have hdigits : ∀ c ∈ pyLower (pyStrInt p.jersey_number), isDigitC c = true := by
      intro c hc
      rcases List.mem_map.mp hc with ⟨c0, hc0, hlow⟩
      have hc0d : isDigitC c0 = true := by
        unfold pyStrInt at hc0
        rw [if_neg (by omega)] at hc0
        exact pyStrNat_digits _ c0 hc0
      rw [← hlow, lowerChar_of_digit hc0d]
      exact hc0d
    have hstripd : ∀ c ∈ pyStrip s, isDigitC c = true := by
      intro c hc
      have hmem : lowerChar c ∈ pyLower (pyStrip s) := List.mem_map_of_mem lowerChar hc
      have : isDigitC (lowerChar c) = true := hdigits _ (hinf.subset hmem)
      exact isDigitC_of_lowerChar this
    rcases pyParseInt_of_all_digits hne hstripd with ⟨n, hn⟩
    rw [hn] at hpi
    exact Option.noConfusion hpi

/-- Witness for the amended C4 at concrete inputs: search `"x"` (does not
parse, no wildcards) yields the always-false exact-field predicate on
`sampleRow` and a false all-fields jersey disjunct. -/
theorem jersey_search_nonint_zero_rows_witness :
    searchPred ⟨some "x".toList, SearchField.jersey_number, 1, 20, SortField.name,
        SortDir.asc, []⟩ sampleRow = false ∧
      jerseyAllDisjunct "x".toList sampleRow = false :=
  ⟨jersey_search_nonint_zero_rows.1 "x".toList sampleRow 1 20 SortField.name SortDir.asc []
      (by decide) (by decide) (by decide),
    jersey_search_nonint_zero_rows.2 "x".toList sampleRow
      (by decide) (by decide) (by decide) (by decide) (by decide)⟩

/-! ### `_apply_custom_filters` (C10) -/

/-- `str(value)` for a filter value (`str(True) = "True"`). -/
def pyValueToStr : PyValue → Str
  | PyValue.pyStr s => s
  | PyValue.pyInt n => pyStrInt n
  | PyValue.pyBool b => if b then "True".toList else "False".toList

/-- `int(value) if isinstance(value, str) else value`: the unguarded coercion
of a numeric filter value (a Python `bool` is an `int` subclass with value
0/1); `None` models the uncaught `ValueError` on a non-numeric string. -/
def coerceNumeric : PyValue → Option Int
  | PyValue.pyStr s => pyParseInt s
  | PyValue.pyInt n => some n
  | PyValue.pyBool b => some (if b then 1 else 0)

/-- String-field filter predicate (`position` filters `Player.position`,
`team` filters the joined `Team.name`); comparisons lower-case both sides,
`contains`/`not_contains` are `LIKE '%...%'`; an operator with no branch
leaves the query unchanged. -/
def stringFilterPred (f : PlayerFilter) (p : PlayerRow) : Bool :=
  let col := if f.field = FilterField.team then p.team_name else p.position
  let v := pyLower (pyValueToStr f.value)
  match f.operator with
  | FilterOp.opEq => decide (pyLower col = v)
  | FilterOp.opNe => decide (pyLower col ≠ v)
  | FilterOp.opContains => likeMatch ('%' :: v ++ ['%']) (pyLower col)
  | FilterOp.opNotContains => !likeMatch ('%' :: v ++ ['%']) (pyLower col)
  | _ => true

/-- Numeric column dereference for the four filtered numeric fields. -/
def numericColumn (f : FilterField) (p : PlayerRow) : Int :=
  match f with
  | FilterField.jersey_number => p.jersey_number
  | FilterField.goals => p.goals
  | FilterField.assists => p.assists
  | FilterField.points => p.points
  | _ => 0

/-- Numeric-field filter predicate for an already-coerced value; an operator
with no branch leaves the query unchanged. -/
def numericFilterPred (fld : FilterField) (op : FilterOp) (n : Int)
    (p : PlayerRow) : Bool :=
  match op with
  | FilterOp.opEq => decide (numericColumn fld p = n)
  | FilterOp.opNe => decide (numericColumn fld p ≠ n)
  | FilterOp.opGt => decide (n < numericColumn fld p)
  | FilterOp.opLt => decide (numericColumn fld p < n)
  | FilterOp.opGe => decide (n ≤ numericColumn fld p)
  | FilterOp.opLe => decide (numericColumn fld p ≤ n)
  | _ => true

/-- `active_status` filter predicate: a string value is truthy when its
lower-casing is one of `"true","1","yes","active"`; an int is truthy when
non-zero; operators other than `=`/`!=` leave the query unchanged. -/
def boolFilterPred (f : PlayerFilter) (p : PlayerRow) : Bool :=
  let bv : Bool :=
    match f.value with
    | PyValue.pyStr s =>
      decide (pyLower s ∈ ["true".toList, "1".toList, "yes".toList, "active".toList])
    | PyValue.pyInt n => decide (n ≠ 0)
    | PyValue.pyBool b => b
  match f.operator with
  | FilterOp.opEq => p.active_status == bv
  | FilterOp.opNe => !(p.active_status == bv)
  | _ => true

/-- Compile one filter: the four branch groups of `_apply_custom_filters`;
the numeric branch covers exactly `jersey_number, goals, assists, points` and
is the only conditionless `int(value)` coercion (the remaining nine numeric
fields fall through every branch and are silently ignored). -/
def filterPred1 (f : PlayerFilter) : Option (PlayerRow → Bool) :=
  if f.field ∈ [FilterField.position, FilterField.team] then
    some (stringFilterPred f)
  else if f.field ∈ [FilterField.jersey_number, FilterField.goals,
      FilterField.assists, FilterField.points] then
    match coerceNumeric f.value with
    | none => none
    | some n => some (numericFilterPred f.field f.operator n)
  else if f.field = FilterField.active_status then
    some (boolFilterPred f)
  else
    some (fun _ => true)

/-- `_apply_custom_filters` over the whole filter list: predicates conjoined
(`AND`); `None` propagates the uncaught exception of a bad coercion. -/
def compileFilters : List PlayerFilter → Option (PlayerRow → Bool)
  | [] => some (fun _ => true)
  | f :: rest =>
    match filterPred1 f, compileFilters rest with
    | some p1, some pr => some (fun r => p1 r && pr r)
    | _, _ => none

/-- C10.  Filter compilation is total exactly under the precondition that
every string-valued filter on the four coerced numeric fields carries a
string parsing as a decimal integer; a numeric filter whose string value does
not parse makes compilation raise (model: `none`) instead of producing a
rejection or a zero-result predicate. -/
theorem numeric_filter_coercion_unguarded :
    (∀ fs : List PlayerFilter,
      (∀ f ∈ fs, f.field ∈ [FilterField.jersey_number, FilterField.goals,
          FilterField.assists, FilterField.points] →
        ∀ s, f.value = PyValue.pyStr s → (pyParseInt s).isSome) →
      (compileFilters fs).isSome) ∧
    compileFilters
        [⟨FilterField.jersey_number, FilterOp.opEq, PyValue.pyStr "abc".toList⟩] =
      none := by
  constructor
  · intro fs
    induction fs with
    | nil =>
      intro _
      rfl
    | cons f rest ih =>
      intro h
      have hf1 : (filterPred1 f).isSome := by
        unfold filterPred1
        split
        · rfl
        · split
          · rename_i hnotstr hnum
            rcases hv : f.value with s | n | b
            · have := h f (by simp) hnum s hv
              rw [Option.isSome_iff_exists] at this
              rcases this with ⟨n, hn⟩
              simp [coerceNumeric, hn]
            · simp [coerceNumeric]
            · simp [coerceNumeric]
          · split
            · rfl
            · rfl
      have hrest : (compileFilters rest).isSome :=
        ih (fun g hg => h g (by simp [hg]))
      unfold compileFilters
      rw [Option.isSome_iff_exists] at hf1 hrest
      rcases hf1 with ⟨p1, hp1⟩
      rcases hrest with ⟨pr, hpr⟩
      rw [hp1, hpr]
      rfl
  · rfl

/-- Witness for C10 at a concrete input: a numeric filter whose string value
parses compiles successfully. -/
theorem numeric_filter_coercion_unguarded_witness :
    (compileFilters
        [⟨FilterField.goals, FilterOp.opGe, PyValue.pyStr "10".toList⟩]).isSome :=
  numeric_filter_coercion_unguarded.1
    [⟨FilterField.goals, FilterOp.opGe, PyValue.pyStr "10".toList⟩]
    (by
      intro f hf hnum s hs
      simp only [List.mem_singleton] at hf
      subst hf
      simp only [PyValue.pyStr.injEq] at hs
      rw [← hs]
      decide)

/-! ### `get_players_with_search` (C6) -/

/-- Row comparison of a compiled ordering, as a sort relation. -/
def rowOrder (ord : SortColumn × StorageDir) (p q : PlayerRow) : Prop :=
  orderLe ord p q = true

instance (ord : SortColumn × StorageDir) : DecidableRel (rowOrder ord) := fun p q => by
  unfold rowOrder
  infer_instance

/-- The ordered rows of the compiled query (`ORDER BY` returns some sorted
permutation of the matching rows; the model picks insertion sort). -/
def sortRows (sp : SearchParams) (l : List PlayerRow) : List PlayerRow :=
  List.insertionSort (rowOrder (applySorting sp.sort_by sp.sort_order)) l

/-- `get_players_with_search` over the joined row set: apply search, filters
and sorting, read the total count off the compiled query, then fetch the
window `offset = (page - 1) * limit`, `limit` rows; `none` models the
uncaught coercion exception of `_apply_custom_filters`. -/
def get_players_with_search (rows : List PlayerRow) (sp : SearchParams) :
    Option (List PlayerRow × Nat) :=
  match compileFilters sp.filters with
  | none => none
  | some fpred =>
    let matched := (rows.filter (fun p => searchPred sp p)).filter fpred
    let sorted := sortRows sp matched
    some ((sorted.drop ((sp.page - 1) * sp.limit)).take sp.limit, sorted.length)

/-- The number of rows matching search and filters, before pagination. -/
def matchedCount (rows : List PlayerRow) (sp : SearchParams)
    (fpred : PlayerRow → Bool) : Nat :=
  ((rows.filter (fun p => searchPred sp p)).filter fpred).length

theorem sortRows_length (sp : SearchParams) (l : List PlayerRow) :
    (sortRows sp l).length = l.length :=
  (List.perm_insertionSort (rowOrder (applySorting sp.sort_by sp.sort_order)) l).length_eq

/-- C6.  For every valid query (`page ≥ 1`, `1 ≤ limit ≤ 100`) whose filters
compile, the listing returns the window starting at offset
`(page - 1) * limit` of the sorted matching rows, at most `limit` of them,
together with a total count that equals the number of rows matching search
and filters and is invariant under every change of page and limit; a page
whose offset is at or beyond the match count yields the empty list with that
same total count, and no error. -/
theorem pagination_window_and_total_count (rows : List PlayerRow)
    (sp : SearchParams) (fpred : PlayerRow → Bool)
    (hpage : 1 ≤ sp.page) (hlim1 : 1 ≤ sp.limit) (hlim2 : sp.limit ≤ 100)
    (hc : compileFilters sp.filters = some fpred) :
    ∃ items,
      get_players_with_search rows sp = some (items, matchedCount rows sp fpred) ∧
      items = ((sortRows sp ((rows.filter (fun p => searchPred sp p)).filter
          fpred)).drop ((sp.page - 1) * sp.limit)).take sp.limit ∧
      items.length ≤ sp.limit ∧
      (∀ pg lim : Nat,
        (get_players_with_search rows
            { sp with page := pg, limit := lim }).map Prod.snd =
          some (matchedCount rows sp fpred)) ∧
      (matchedCount rows sp fpred ≤ (sp.page - 1) * sp.limit → items = []) := by
  unfold get_players_with_search
  rw [hc]
  dsimp only
  refine ⟨_, ?_, rfl, ?_, ?_, ?_⟩
  · rw [sortRows_length]
    rfl
  · exact List.length_take_le _ _
  · intro pg lim
    simp only [hc]
    rw [sortRows_length]
    rfl
  · intro hbeyond
    have hlen : (sortRows sp ((rows.filter (fun p => searchPred sp p)).filter
        fpred)).length ≤ (sp.page - 1) * sp.limit := by
      rw [sortRows_length]
      exact hbeyond
    rw [List.drop_eq_nil_iff.mpr hlen]
    exact List.take_nil

/-- A sample parameter set (page far beyond the two sample rows). -/
def sampleParams : SearchParams :=
  ⟨none, SearchField.all, 5, 20, SortField.name, SortDir.asc, []⟩

/-- Witness for C6 at concrete inputs: two rows, page 5 of size 20 — empty
page, total count still reported. -/
theorem pagination_window_and_total_count_witness :
    ∃ items,
      get_players_with_search [sampleRow, sampleRow2] sampleParams =
          some (items, matchedCount [sampleRow, sampleRow2] sampleParams (fun _ => true)) ∧
        items = [] := by
  obtain ⟨items, h1, _, _, _, h5⟩ :=
    pagination_window_and_total_count [sampleRow, sampleRow2] sampleParams
      (fun _ => true) (by decide) (by decide) (by decide) rfl
  exact ⟨items, h1, h5 (by decide)⟩

/-! ### `create_player` and `update_player` (C7) -/

/-- `PlayerCreate`: the validated creation payload (derived statistics are
not part of the payload; they are computed at write time). -/
structure PlayerCreate where
  name : Str
  jersey_number : Int
  position : Str
  team_id : Int
  nationality : Str
  birth_date : Int
  height : Str
  weight : Int
  handedness : Str
  active_status : Bool
  regular_season_games_played : Int
  regular_season_goals : Int
  regular_season_assists : Int
  playoff_games_played : Int
  playoff_goals : Int
  playoff_assists : Int

/-- `PlayerUpdate`: same shape as the creation payload, all fields required. -/
structure PlayerUpdate where
  name : Str
  jersey_number : Int
  position : Str
  team_id : Int
  nationality : Str
  birth_date : Int
  height : Str
  weight : Int
  handedness : Str
  active_status : Bool
  regular_season_games_played : Int
  regular_season_goals : Int
  regular_season_assists : Int
  playoff_games_played : Int
  playoff_goals : Int
  playoff_assists : Int

/-- `create_player`: compute the derived statistics from their components and
store them denormalized on the new row.  The database assigns the id and the
join resolves the team name; both are passed in as context. -/
def create_player (d : PlayerCreate) (assigned_id : Int) (joined_team_name : Str) :
    PlayerRow :=
  let regular_season_points := d.regular_season_goals + d.regular_season_assists
  let playoff_points := d.playoff_goals + d.playoff_assists
  let games_played := d.regular_season_games_played + d.playoff_games_played
  let goals := d.regular_season_goals + d.playoff_goals
  let assists := d.regular_season_assists + d.playoff_assists
  let points := goals + assists
  ⟨assigned_id, d.name, d.position, d.nationality, d.team_id, joined_team_name,
    d.jersey_number, d.birth_date, d.height, d.weight, d.handedness,
    d.active_status,
    d.regular_season_games_played, d.regular_season_goals,
    d.regular_season_assists, regular_season_points,
    d.playoff_games_played, d.playoff_goals, d.playoff_assists, playoff_points,
    games_played, goals, assists, points⟩

/-- `update_player` on a found row: overwrite every payload field and
recompute the derived statistics (the id is unchanged; the joined team name
is a join attribute, not a stored column of the player row). -/
def update_player (p : PlayerRow) (d : PlayerUpdate) : PlayerRow :=
  let regular_season_points := d.regular_season_goals + d.regular_season_assists
  let playoff_points := d.playoff_goals + d.playoff_assists
  let games_played := d.regular_season_games_played + d.playoff_games_played
  let goals := d.regular_season_goals + d.playoff_goals
  let assists := d.regular_season_assists + d.playoff_assists
  let points := goals + assists
  { p with
    name := d.name
    position := d.position
    nationality := d.nationality
    team_id := d.team_id
    jersey_number := d.jersey_number
    birth_date := d.birth_date
    height := d.height
    weight := d.weight
    handedness := d.handedness
    active_status := d.active_status
    regular_season_games_played := d.regular_season_games_played
    regular_season_goals := d.regular_season_goals
    regular_season_assists := d.regular_season_assists
    regular_season_points := regular_season_points
    playoff_games_played := d.playoff_games_played
    playoff_goals := d.playoff_goals
    playoff_assists := d.playoff_assists
    playoff_points := playoff_points
    games_played := games_played
    goals := goals
    assists := assists
    points := points }

/-- The denormalized derived statistics equal the sums of their components. -/
def derivedStatsInvariant (p : PlayerRow) : Prop :=
  p.regular_season_points = p.regular_season_goals + p.regular_season_assists ∧
    p.playoff_points = p.playoff_goals + p.playoff_assists ∧
    p.games_played = p.regular_season_games_played + p.playoff_games_played ∧
    p.goals = p.regular_season_goals + p.playoff_goals ∧
    p.assists = p.regular_season_assists + p.playoff_assists ∧
    p.points = p.goals + p.assists

/-- C7.  Every row written by `create_player` and every row written by
`update_player` satisfies all six derived-statistic equations: the invariant
is established at write time on the stored denormalized columns (reads return
the stored values unchanged). -/
theorem derived_stats_invariant_on_write :
    (∀ (d : PlayerCreate) (assigned_id : Int) (joined_team_name : Str),
      derivedStatsInvariant (create_player d assigned_id joined_team_name)) ∧
    (∀ (p : PlayerRow) (d : PlayerUpdate),
      derivedStatsInvariant (update_player p d)) := by
  constructor
  · intro d i t
    exact ⟨rfl, rfl, rfl, rfl, rfl, rfl⟩
  · intro p d
    exact ⟨rfl, rfl, rfl, rfl, rfl, rfl⟩

/-- C6 (counterexample).  A query with `page = 1` and `limit = 20` (so valid
by the claim's bounds) carrying the construction-valid filter
`jersey_number = "abc"` makes the listing operation raise (model: `none`)
instead of returning rows and a count, because the value coercion of
`_apply_custom_filters` is unguarded. -/
theorem listing_error_on_unparsable_filter :
    get_players_with_search [sampleRow]
        ⟨none, SearchField.all, 1, 20, SortField.name, SortDir.asc,
          [⟨FilterField.jersey_number, FilterOp.opEq, PyValue.pyStr "abc".toList⟩]⟩ =
        none ∧
      mkPlayerFilter FilterField.jersey_number FilterOp.opEq
          (PyValue.pyStr "abc".toList) =
        Except.ok ⟨FilterField.jersey_number, FilterOp.opEq,
          PyValue.pyStr "abc".toList⟩ :=
  ⟨rfl, rfl⟩
